import Mathlib

/-!
Verification of the retrieval and interest pipeline of the webhook_twilio
repository against its specification. The Python sources are embedded
shallowly: floats become real numbers, database rows become structures,
and the faiss flat inner-product index becomes exact top-k selection over
the stored vector list. Each claim of the specification is settled by
theorems about these definitions.
-/

/-! ## Conversation context window (database_integration.py, ConversationalBot) -/

/-- One entry of the in-memory conversation window: the dictionary
with keys message, is_bot and timestamp built in
ConversationalBot.update_conversation_context. -/
structure Turn where
  message : String
  is_bot : Bool
  timestamp : Nat
deriving DecidableEq

/-- Embedding of ConversationalBot.update_conversation_context
(database_integration.py lines 371-383) acting on one client entry of
conversation_history: append the new turn, then keep only the last 10
turns when the window exceeds 10. The Python slice [-10:] is the drop of
all but the last 10 elements. -/
def update_conversation_context (history : List Turn) (t : Turn) : List Turn :=
  let h := history ++ [t]
  if 10 < h.length then h.drop (h.length - 10) else h

/-- One row of the mensaje table as
DatabaseManager.get_conversation_history selects it (tipo,
contenido_texto, fecha, isBot, media_url). Timestamps are modelled as
naturals. -/
structure Mensaje where
  tipo : String
  contenido_texto : String
  fecha : Nat
  is_bot : Bool
  media_url : Option String
deriving DecidableEq

/-- Ordering used by the SQL ORDER BY fecha DESC of
get_conversation_history: larger fecha first. -/
def fecha_desc (a b : Mensaje) : Prop := b.fecha ≤ a.fecha

instance : DecidableRel fecha_desc :=
  fun a b => inferInstanceAs (Decidable (b.fecha ≤ a.fecha))

/-- Embedding of DatabaseManager.get_conversation_history
(database_integration.py lines 210-227): the query orders messages by
fecha descending, keeps at most `limit` rows, and the Python code then
reverses them into chronological order. The SQL sort is modelled as a
stable insertion sort on the stored row order. -/
def get_conversation_history (msgs : List Mensaje) (limit : Nat) : List Mensaje :=
  ((List.insertionSort fecha_desc msgs).take limit).reverse

/-- Embedding of the hydration step of
ConversationalBot.process_client_message (database_integration.py lines
470-477): the window for the client is reset to the empty list and every
fetched message is appended in order. The previous window is discarded
entirely. -/
def hydrate_window (_previous : List Turn) (db_history : List Mensaje) : List Turn :=
  db_history.foldl (fun acc m => acc ++ [⟨m.contenido_texto, m.is_bot, m.fecha⟩]) []

/-! ## Interest extraction over a batch of conversations -/

/-- One detected interest as the dictionaries produced by
ConversationalBot.analyze_conversation_intent hold it. -/
structure Intent where
  tipo_interes : String
  entidad_id : Nat
  entidad_nombre : String
  nivel_interes : Rat
  contexto : String
  conversacion_id : Nat
deriving DecidableEq

/-- Outcome of the completion-and-parse step for one conversation inside
analyze_conversation_intent: either json.loads succeeded and yielded a
list of intents, or it raised json.JSONDecodeError. The OpenAI call and
the JSON decoding itself are external and enter the model only through
this outcome. -/
inductive ExtractionOutcome where
  | parsed (intents : List Intent)
  | decodeError
deriving DecidableEq

/-- Embedding of the accumulation loop of
ConversationalBot.analyze_conversation_intent (database_integration.py
lines 530-689): all_intents starts empty; for each conversation a parsed
response has conversacion_id stamped onto every intent and is appended
to all_intents, while a JSONDecodeError is logged and the loop
continues with the next conversation. -/
def analyze_conversation_intent (conversations : List (Nat × ExtractionOutcome)) : List Intent :=
  conversations.foldl
    (fun all_intents conv =>
      match conv.2 with
      | .parsed intents =>
          all_intents ++ intents.map (fun i => { i with conversacion_id := conv.1 })
      | .decodeError => all_intents)
    []

/-! ## Vector store (chatbot_system.py, VectorStore) -/

/-- Inner product of two vectors, the score faiss IndexFlatIP assigns a
stored vector against a query. -/
def dot (a b : List ℝ) : ℝ := (List.zipWith (fun x y => x * y) a b).sum

/-- Sum of squares of the components: the square of the L2 norm. -/
def sum_sq (v : List ℝ) : ℝ := (v.map (fun x => x * x)).sum

/-- Embedding of faiss.normalize_L2 on one row: divide every component
by the L2 norm. faiss (fvec_renorm_L2) leaves a row whose norm is zero
unchanged, hence the guard. -/
noncomputable def normalize_L2 (v : List ℝ) : List ℝ :=
  if 0 < sum_sq v then v.map (fun x => x / Real.sqrt (sum_sq v)) else v

/-- One element of embeddings_data: the metadata dictionary stored in
lock-step with the vector (the denormalized product_data payload is
opaque to every claim and is elided). -/
structure EmbeddingRecord where
  product_id : Nat
  text : String
  embedding : List ℝ

/-- The VectorStore state: the configured dimension, the vectors held by
the faiss index in insertion order, and the parallel metadata list. -/
structure VectorStore where
  dimension : Nat
  index : List (List ℝ)
  metadata : List EmbeddingRecord

/-- VectorStore.__init__: an empty flat index and empty metadata. -/
def VectorStore.empty (dimension : Nat) : VectorStore := ⟨dimension, [], []⟩

/-- Embedding of VectorStore.add_embeddings (chatbot_system.py lines
125-135): the batch of vectors is L2-normalized row by row and appended
to the index, and the raw records are appended to metadata. -/
noncomputable def VectorStore.add_embeddings (st : VectorStore)
    (embeddings_data : List EmbeddingRecord) : VectorStore :=
  { st with
    index := st.index ++ embeddings_data.map (fun r => normalize_L2 r.embedding),
    metadata := st.metadata ++ embeddings_data }

/-- Ranking order of scored candidates: higher inner product first. -/
def score_desc (a b : Nat × ℝ) : Prop := b.2 ≤ a.2

noncomputable instance : DecidableRel score_desc :=
  fun a b => Real.decidableLE b.2 a.2

instance : IsTotal (Nat × ℝ) score_desc := ⟨fun a b => le_total b.2 a.2⟩

instance : IsTrans (Nat × ℝ) score_desc := ⟨fun _ _ _ h1 h2 => le_trans h2 h1⟩

/-- Model of faiss IndexFlatIP.search on one query: score every stored
vector by inner product, rank by descending score, return the first k
(index, score) pairs, and pad with index -1 when fewer than k vectors
are stored, as faiss does. -/
noncomputable def faiss_search (xb : List (List ℝ)) (q : List ℝ) (k : Nat) : List (Int × ℝ) :=
  let scored := (xb.map (fun v => dot v q)).enum
  let ranked := List.insertionSort score_desc scored
  let top := (ranked.take k).map (fun p => ((p.1 : Int), p.2))
  top ++ List.replicate (k - top.length) (-1, 0)

/-- Embedding of VectorStore.search (chatbot_system.py lines 137-153):
normalize the query, run the faiss search, keep only the entries whose
index is not -1, and pair each score with the metadata list entry at the
reported position. The Python indexing self.metadata[idx] is modelled by
the optional lookup List.get?. -/
noncomputable def VectorStore.search (st : VectorStore) (query_embedding : List ℝ)
    (k : Nat) : List (ℝ × Option EmbeddingRecord) :=
  let qn := normalize_L2 query_embedding
  let hits := (faiss_search st.index qn k).filter (fun p => decide (p.1 ≠ -1))
  hits.map (fun p => (p.2, st.metadata.get? p.1.toNat))

/-- Embedding of VectorStore.load_index (chatbot_system.py lines
161-165) after the two artifacts have been deserialized: both are
assigned verbatim. The method body contains no validation of any kind,
so no error outcome is ever produced for successfully deserialized
artifacts. -/
def VectorStore.load_index (st : VectorStore) (stored_index : List (List ℝ))
    (stored_metadata : List EmbeddingRecord) : Except String VectorStore :=
  .ok { st with index := stored_index, metadata := stored_metadata }

/-! ## Interest aggregation (DatabaseManager.get_clients_with_interests) -/

/-- One row of the cliente table. -/
structure Cliente where
  id : Nat
  telefono : String
  nombre : String
  correo : String
deriving DecidableEq

/-- One row of the conversacion table (only the columns the join uses). -/
structure Conversacion where
  id : Nat
  cliente_id : Nat
deriving DecidableEq

/-- One row of the interes table. fecha_creacion is modelled as a
natural timestamp. -/
structure Interes where
  conversacion_id : Nat
  tipo_interes : String
  entidad_id : Nat
  entidad_nombre : String
  nivel_interes : Rat
  contexto : String
  fecha_creacion : Nat
deriving DecidableEq

/-- One row of the result set of the SQL query inside
get_clients_with_interests (the ROW_NUMBER column rn is computed by the
query but never read by the Python code, so it is not carried). -/
structure InterestRow where
  cliente_id : Nat
  telefono : String
  nombre : String
  correo : String
  tipo_interes : String
  entidad_id : Nat
  entidad_nombre : String
  nivel_interes : Rat
  contexto : String
deriving DecidableEq

/-- One interest dictionary as the Python grouping loop builds it. -/
structure InterestEntry where
  tipo_interes : String
  entidad_id : Nat
  entidad_nombre : String
  nivel_interes : Rat
  contexto : String
deriving DecidableEq

/-- One value of clients_dict: client identity plus its interest list. -/
structure ClientProfile where
  cliente_id : Nat
  telefono : String
  nombre : String
  correo : String
  interests : List InterestEntry
deriving DecidableEq

/-- The selected columns of one joined (cliente, interes) pair. -/
def interest_row_of (c : Cliente) (i : Interes) : InterestRow :=
  ⟨c.id, c.telefono, c.nombre, c.correo, i.tipo_interes, i.entidad_id,
    i.entidad_nombre, i.nivel_interes, i.contexto⟩

/-- The WHERE clause of the query: nivel_interes at least the threshold
and fecha_creacion at or after the cutoff date. -/
def qualifies (min_interest_level : Rat) (cutoff : Nat) (i : Interes) : Bool :=
  decide (min_interest_level ≤ i.nivel_interes) && decide (cutoff ≤ i.fecha_creacion)

/-- The FROM/JOIN/WHERE part of the query of get_clients_with_interests
(database_integration.py lines 302-320): cliente joined to conversacion
on cliente_id, joined to interes on conversacion_id, filtered by the
threshold and the cutoff. The SELECT DISTINCT of the query deduplicates
nothing because the ROW_NUMBER column makes every selected row distinct,
so it is not modelled. -/
def joined_rows (clientes : List Cliente) (convs : List Conversacion)
    (intereses : List Interes) (min_interest_level : Rat) (cutoff : Nat) :
    List InterestRow :=
  clientes.bind (fun c =>
    (convs.filter (fun cv => cv.cliente_id == c.id)).bind (fun cv =>
      ((intereses.filter (fun i => i.conversacion_id == cv.id)).filter
          (qualifies min_interest_level cutoff)).map (interest_row_of c)))

/-- The ORDER BY c.id, i.nivel_interes DESC of the query: client id
ascending, and inside one client the interest level descending. Rows the
order does not separate (same client, same level) keep their underlying
order; the query specifies nothing for them. -/
def row_order (a b : InterestRow) : Prop :=
  a.cliente_id < b.cliente_id ∨
    (a.cliente_id = b.cliente_id ∧ b.nivel_interes ≤ a.nivel_interes)

instance : DecidableRel row_order :=
  fun a b => inferInstanceAs (Decidable (a.cliente_id < b.cliente_id ∨
    (a.cliente_id = b.cliente_id ∧ b.nivel_interes ≤ a.nivel_interes)))

instance : IsTotal InterestRow row_order := by
  constructor
  intro a b
  rcases Nat.lt_trichotomy a.cliente_id b.cliente_id with h | h | h
  · exact Or.inl (Or.inl h)
  · rcases le_total b.nivel_interes a.nivel_interes with h2 | h2
    · exact Or.inl (Or.inr ⟨h, h2⟩)
    · exact Or.inr (Or.inr ⟨h.symm, h2⟩)
  · exact Or.inr (Or.inl h)

instance : IsTrans InterestRow row_order := by
  constructor
  intro a b c h1 h2
  rcases h1 with h1 | ⟨e1, l1⟩
  · rcases h2 with h2 | ⟨e2, l2⟩
    · exact Or.inl (lt_trans h1 h2)
    · exact Or.inl (e2 ▸ h1)
  · rcases h2 with h2 | ⟨e2, l2⟩
    · exact Or.inl (e1 ▸ h2)
    · exact Or.inr ⟨e1.trans e2, le_trans l2 l1⟩

/-- The interest dictionary appended for one row by the grouping loop. -/
def entry_of (row : InterestRow) : InterestEntry :=
  ⟨row.tipo_interes, row.entidad_id, row.entidad_nombre, row.nivel_interes, row.contexto⟩

/-- The clients_dict entry created the first time a client id is seen:
the identity columns plus the first interest (the append happens because
the fresh list has length 0 < 3). -/
def new_profile (row : InterestRow) : ClientProfile :=
  ⟨row.cliente_id, row.telefono, row.nombre, row.correo, [entry_of row]⟩

/-- One step of the grouping loop of get_clients_with_interests
(database_integration.py lines 329-349) over the insertion-ordered
clients_dict, modelled as an association list: a new client id appends a
new profile, an existing one appends the interest only while the client
holds fewer than 3 interests. -/
def add_row : List ClientProfile → InterestRow → List ClientProfile
  | [], row => [new_profile row]
  | p :: ps, row =>
    if p.cliente_id = row.cliente_id then
      (if p.interests.length < 3 then
        { p with interests := p.interests ++ [entry_of row] }
      else p) :: ps
    else p :: add_row ps row

/-- Embedding of DatabaseManager.get_clients_with_interests
(database_integration.py lines 296-351): run the query (join, filter,
order), then fold the rows through the grouping loop; the returned list
is list(clients_dict.values()) in insertion order. -/
def get_clients_with_interests (clientes : List Cliente) (convs : List Conversacion)
    (intereses : List Interes) (min_interest_level : Rat) (cutoff : Nat) :
    List ClientProfile :=
  (List.insertionSort row_order
      (joined_rows clientes convs intereses min_interest_level cutoff)).foldl add_row []

/-- Verification predicate for the grouping loop: the interests of
profile p are the images under entry_of of a nonempty subsequence of
rows, at most 3 of them, all drawn from rows carrying the client id of
p. -/
def profile_from_rows (rows : List InterestRow) (p : ClientProfile) : Prop :=
  ∃ rs : List InterestRow, rs.Sublist rows ∧ rs ≠ [] ∧ rs.length ≤ 3 ∧
    (∀ r ∈ rs, r.cliente_id = p.cliente_id) ∧ p.interests = rs.map entry_of

/-! ## JSON span extraction from completion text -/

/-- Helper for the greedy regex match: the prefix of the character list
that ends at its last closing brace, or none when the list holds no
closing brace. -/
def take_to_last_close : List Char → Option (List Char)
  | [] => none
  | c :: cs =>
    match take_to_last_close cs with
    | some t => some (c :: t)
    | none => if c = '}' then some [c] else none

/-- Embedding of the regex search both extractors run over the raw
completion text (database_integration.py line 668 and app.py line 162):
the pattern is an opening brace, a greedy run of arbitrary characters,
and a closing brace, so the leftmost match starts at the first opening
brace that is followed by some closing brace and extends to the last
closing brace of the whole text. -/
def brace_span_match : List Char → Option (List Char)
  | [] => none
  | c :: cs => if c = '{' then take_to_last_close (c :: cs) else brace_span_match cs

/-- The text handed to json.loads: the matched group when the regex
matched, otherwise the raw response unchanged (database_integration.py
lines 668-672, app.py lines 162-166). -/
def extract_json_text (s : List Char) : List Char := (brace_span_match s).getD s

/-- Helper for the specification-side reading: consume characters until
the brace depth opened before this call returns to zero, returning the
consumed prefix that ends at the matching closing brace. -/
def balanced_close (depth : Nat) : List Char → Option (List Char)
  | [] => none
  | c :: cs =>
    if c = '}' then
      if depth = 0 then some [c]
      else (balanced_close (depth - 1) cs).map (fun t => c :: t)
    else if c = '{' then (balanced_close (depth + 1) cs).map (fun t => c :: t)
    else (balanced_close depth cs).map (fun t => c :: t)

/-- Specification-side definition, written from the words of the spec
rather than the code, for comparison with brace_span_match: the first
balanced brace span of the text, that is the leftmost substring that
starts at an opening brace and ends at the closing brace matching it. -/
def spec_first_balanced_span : List Char → Option (List Char)
  | [] => none
  | c :: cs =>
    if c = '{' then
      match balanced_close 0 cs with
      | some t => some (c :: t)
      | none => spec_first_balanced_span cs
    else spec_first_balanced_span cs

/-! ## Product text builder (chatbot_system.py, EmbeddingGenerator) -/

/-- One promotion dictionary as _get_product_promotions builds it (the
date columns play no part in the text builder and are elided). -/
structure Promocion where
  nombre : String
  descuento_porcentaje : Rat
  descripcion : String
deriving DecidableEq

/-- One image dictionary as _get_product_images builds it. -/
structure Imagen where
  url : String
  descripcion : String
deriving DecidableEq

/-- The ProductInfo dataclass of chatbot_system.py. Absent text columns
arrive as empty strings (extract_products_data substitutes them), so
Python truthiness on them is the empty-string test. -/
structure ProductInfo where
  id : Nat
  nombre : String
  descripcion : String
  categoria : String
  categoria_descripcion : String
  precio_actual : Rat
  lista_precios : String
  promociones : List Promocion
  imagenes : List Imagen
  activo : Bool
deriving DecidableEq

/-- Models the Python format specifier .2f on the nonnegative price
values that occur: round to whole cents — the floor of 100q + 1/2,
computed on the reduced fraction with integer arithmetic — and render
with exactly two digits after the decimal point (rounding differences of
Python float formatting are immaterial to the claims, which never
exercise midpoints). -/
def format_2f (q : Rat) : String :=
  let cents : Int := (q.num * 200 + (q.den : Int)) / (2 * (q.den : Int))
  let whole := cents / 100
  let frac := cents % 100
  toString whole ++ "." ++ (if frac < 10 then "0" ++ toString frac else toString frac)

/-- Models the Python str() rendering of the float discount values: an
integral float prints with a trailing .0. -/
def py_float_str (q : Rat) : String :=
  if q.den = 1 then toString q.num ++ ".0" else toString q

/-- The promotion fragment built in the loop of create_product_text
(chatbot_system.py lines 52-56): name, discount percentage, and the
description only when present. -/
def promocion_text (promo : Promocion) : String :=
  let base := promo.nombre ++ " - " ++ py_float_str promo.descuento_porcentaje ++ "% descuento"
  if promo.descripcion = "" then base else base ++ " - " ++ promo.descripcion

/-- Embedding of EmbeddingGenerator.create_product_text
(chatbot_system.py lines 31-65), mirroring the sequential appends to
text_parts: name always; description when nonempty; category name
always; category description when nonempty; formatted price and price
list always; the joined promotion fragments when the promotion list is
nonempty; the joined nonempty image descriptions when the image list is
nonempty and at least one description is nonempty. The parts are joined
with the delimiter of line 65. -/
def create_product_text (p : ProductInfo) : String :=
  let text_parts : List String := []
  let text_parts := text_parts ++ ["Producto: " ++ p.nombre]
  let text_parts := if p.descripcion = "" then text_parts
    else text_parts ++ ["Descripción: " ++ p.descripcion]
  let text_parts := text_parts ++ ["Categoría: " ++ p.categoria]
  let text_parts := if p.categoria_descripcion = "" then text_parts
    else text_parts ++ ["Descripción de categoría: " ++ p.categoria_descripcion]
  let text_parts := text_parts ++ ["Precio actual: $" ++ format_2f p.precio_actual]
  let text_parts := text_parts ++ ["Lista de precios: " ++ p.lista_precios]
  let text_parts := if p.promociones = [] then text_parts
    else text_parts ++
      ["Promociones activas: " ++ String.intercalate "; " (p.promociones.map promocion_text)]
  let img_descriptions := (p.imagenes.map Imagen.descripcion).filter (fun d => decide (d ≠ ""))
  let text_parts := if p.imagenes = [] then text_parts
    else if img_descriptions = [] then text_parts
    else text_parts ++ ["Imágenes: " ++ String.intercalate "; " img_descriptions]
  String.intercalate " | " text_parts

/-! ## Concrete inputs used by counterexamples and witnesses -/

/-- Concrete eleven-message persisted history used to refute the cap
part of claim C2. -/
def msgs11 : List Mensaje :=
  [⟨"text", "m1", 1, false, none⟩, ⟨"text", "m2", 2, true, none⟩,
   ⟨"text", "m3", 3, false, none⟩, ⟨"text", "m4", 4, true, none⟩,
   ⟨"text", "m5", 5, false, none⟩, ⟨"text", "m6", 6, true, none⟩,
   ⟨"text", "m7", 7, false, none⟩, ⟨"text", "m8", 8, true, none⟩,
   ⟨"text", "m9", 9, false, none⟩, ⟨"text", "m10", 10, true, none⟩,
   ⟨"text", "m11", 11, false, none⟩]

/-- Concrete record with the zero vector, refuting claim C8 as stated. -/
def zero_record : EmbeddingRecord := ⟨3, "z", [0, 0]⟩

/-- Concrete nonzero-vector record for the claim C8 witness. -/
def record34 : EmbeddingRecord := ⟨9, "w", [3, 4]⟩

/-- Concrete one-record store for the claim C10 witness. -/
def record10 : EmbeddingRecord := ⟨7, "t", [1, 0]⟩

/-- Concrete store whose metadata and index lengths agree. -/
def store10 : VectorStore := ⟨2, [[1, 0]], [record10]⟩

/-- Concrete product with an empty category name, refuting the
no-empty-placeholder part of claim C9. -/
def producto0 : ProductInfo := ⟨1, "X", "", "", "", 10, "General", [], [], true⟩

/-- Concrete client for the claim C3 counterexample. -/
def cliente1 : Cliente := ⟨1, "111", "Ana", "a"⟩

/-- Concrete conversation of that client. -/
def conversacion1 : Conversacion := ⟨1, 1⟩

/-- Older of two equal-confidence signals: stored first, created at
time 10, entity 5. -/
def interes_old : Interes := ⟨1, "producto", 5, "A", 1, "c", 10⟩

/-- Newer of the two equal-confidence signals: stored second, created at
time 20, entity 6. -/
def interes_new : Interes := ⟨1, "producto", 6, "B", 1, "c", 20⟩

/-! ## Theorems -/

theorem update_foldl_drop (ts : List Turn) :
    List.foldl update_conversation_context [] ts = ts.drop (ts.length - 10) := by
  induction ts using List.reverseRecOn with
  | nil => rfl
  | append_singleton ts t ih =>
    rw [List.foldl_append, List.foldl_cons, List.foldl_nil, ih]
    unfold update_conversation_context
    by_cases h : ts.length ≤ 9
    · have h0 : ts.length - 10 = 0 := by omega
      rw [h0, List.drop_zero, if_neg (by simp; omega)]
      have h1 : (ts ++ [t]).length - 10 = 0 := by simp; omega
      rw [h1, List.drop_zero]
    · have hw : (ts.drop (ts.length - 10)).length = 10 := by
        rw [List.length_drop]; omega
      rw [if_pos (by simp [hw])]
      have h2 : (ts.drop (ts.length - 10) ++ [t]).length - 10 = 1 := by simp [hw]
      rw [h2, List.drop_append_of_le_length (by omega), List.drop_drop,
        List.drop_append_of_le_length (by simp)]
      congr 2
      simp
      omega

theorem update_getLast (w : List Turn) (t : Turn) :
    (update_conversation_context w t).getLast? = some t := by
  unfold update_conversation_context
  by_cases h : 10 < (w ++ [t]).length
  · rw [if_pos h, List.getLast?_drop, if_neg (by omega), List.getLast?_concat]
  · rw [if_neg h, List.getLast?_concat]

/-- Claim C6 (confirmed): for every sequence of turns appended to a
fresh per-client window, the window equals the suffix of the appended
sequence that drops all but the last 10 turns, so it holds at most 10
turns with the oldest evicted first; after every append the most
recently appended turn is last; and appending 15 turns leaves exactly
the last 10, the oldest 5 evicted. -/
theorem claim_C6_window_fifo_cap (ts : List Turn) :
    List.foldl update_conversation_context [] ts = ts.drop (ts.length - 10) ∧
    (List.foldl update_conversation_context [] ts).length ≤ 10 ∧
    (∀ (w : List Turn) (t : Turn), (update_conversation_context w t).getLast? = some t) ∧
    (ts.length = 15 →
      List.foldl update_conversation_context [] ts = ts.drop 5 ∧
      (List.foldl update_conversation_context [] ts).length = 10) := by
  refine ⟨update_foldl_drop ts, ?_, update_getLast, ?_⟩
  · rw [update_foldl_drop ts, List.length_drop]; omega
  · intro h15
    rw [update_foldl_drop ts, h15]
    exact ⟨rfl, by rw [List.length_drop, h15]⟩

theorem hydrate_window_eq_map (previous : List Turn) (db_history : List Mensaje) :
    hydrate_window previous db_history =
      db_history.map (fun m => ⟨m.contenido_texto, m.is_bot, m.fecha⟩) := by
  unfold hydrate_window
  suffices h : ∀ (l : List Mensaje) (acc : List Turn),
      l.foldl (fun acc m => acc ++ [⟨m.contenido_texto, m.is_bot, m.fecha⟩]) acc =
        acc ++ l.map (fun m => ⟨m.contenido_texto, m.is_bot, m.fecha⟩) by
    simpa using h db_history []
  intro l
  induction l with
  | nil => simp
  | cons m l ih => intro acc; simp [ih]

/-- Claim C2 (corrected): hydration from the persisted history is a full
overwrite — the result does not depend on the previous window and equals
the fetched history turn for turn — but no 10-turn cap is applied at
hydration time: the window afterwards holds min(20, number of persisted
messages) turns, the fetch limit being 20, so a persisted history longer
than 10 turns leaves more than 10 turns in the window. -/
theorem claim_C2_hydrate_overwrite_no_cap (w w2 : List Turn) (msgs : List Mensaje) :
    hydrate_window w (get_conversation_history msgs 20) =
      hydrate_window w2 (get_conversation_history msgs 20) ∧
    hydrate_window w (get_conversation_history msgs 20) =
      (get_conversation_history msgs 20).map (fun m => ⟨m.contenido_texto, m.is_bot, m.fecha⟩) ∧
    (hydrate_window w (get_conversation_history msgs 20)).length = min 20 msgs.length := by
  refine ⟨by rw [hydrate_window_eq_map, hydrate_window_eq_map],
    hydrate_window_eq_map w _, ?_⟩
  rw [hydrate_window_eq_map, List.length_map]
  unfold get_conversation_history
  rw [List.length_reverse, List.length_take, List.length_insertionSort]

/-- Claim C2 counterexample: hydrating from a persisted history of 11
messages leaves 11 turns in the window, more than the claimed cap of
10. -/
theorem claim_C2_counterexample :
    (hydrate_window [] (get_conversation_history msgs11 20)).length = 11 ∧
    ¬ (hydrate_window [] (get_conversation_history msgs11 20)).length ≤ 10 := by
  constructor <;> decide

theorem analyze_foldl_homog (l : List (Nat × ExtractionOutcome)) :
    ∀ (acc1 acc2 : List Intent),
    l.foldl
      (fun all_intents conv =>
        match conv.2 with
        | .parsed intents =>
            all_intents ++ intents.map (fun i => { i with conversacion_id := conv.1 })
        | .decodeError => all_intents)
      (acc1 ++ acc2) = acc1 ++
        l.foldl
          (fun all_intents conv =>
            match conv.2 with
            | .parsed intents =>
                all_intents ++ intents.map (fun i => { i with conversacion_id := conv.1 })
            | .decodeError => all_intents)
          acc2 := by
  induction l with
  | nil => intro acc1 acc2; rfl
  | cons conv l ih =>
    intro acc1 acc2
    obtain ⟨cid, o⟩ := conv
    cases o with
    | parsed ints =>
      rw [List.foldl_cons, List.foldl_cons]
      dsimp only
      rw [List.append_assoc]
      exact ih acc1 _
    | decodeError =>
      rw [List.foldl_cons, List.foldl_cons]
      exact ih acc1 acc2

theorem analyze_foldl_general (l : List (Nat × ExtractionOutcome))
    (acc : List Intent) :
    l.foldl
      (fun all_intents conv =>
        match conv.2 with
        | .parsed intents =>
            all_intents ++ intents.map (fun i => { i with conversacion_id := conv.1 })
        | .decodeError => all_intents)
      acc = acc ++ analyze_conversation_intent l := by
  unfold analyze_conversation_intent
  have h := analyze_foldl_homog l acc []
  rw [List.append_nil] at h
  exact h

theorem analyze_append (l1 l2 : List (Nat × ExtractionOutcome)) :
    analyze_conversation_intent (l1 ++ l2) =
      analyze_conversation_intent l1 ++ analyze_conversation_intent l2 := by
  unfold analyze_conversation_intent
  rw [List.foldl_append]
  exact analyze_foldl_general l2 _

/-- Claim C5 (confirmed): in the per-client batch loop a conversation
whose completion fails to parse as JSON contributes nothing and the loop
continues — the batch result is exactly the concatenation of the results
of the conversations before and after it — while a conversation whose
completion parses contributes its intents stamped with that
conversation id. -/
theorem claim_C5_parse_failure_isolated (pre post : List (Nat × ExtractionOutcome))
    (cid : Nat) (intents : List Intent) :
    analyze_conversation_intent (pre ++ (cid, ExtractionOutcome.decodeError) :: post) =
      analyze_conversation_intent pre ++ analyze_conversation_intent post ∧
    analyze_conversation_intent (pre ++ (cid, ExtractionOutcome.parsed intents) :: post) =
      analyze_conversation_intent pre ++
        intents.map (fun i => { i with conversacion_id := cid }) ++
        analyze_conversation_intent post := by
  constructor
  · rw [show pre ++ (cid, ExtractionOutcome.decodeError) :: post =
        (pre ++ [(cid, ExtractionOutcome.decodeError)]) ++ post by simp,
      analyze_append, analyze_append]
    simp [analyze_conversation_intent]
  · rw [show pre ++ (cid, ExtractionOutcome.parsed intents) :: post =
        (pre ++ [(cid, ExtractionOutcome.parsed intents)]) ++ post by simp,
      analyze_append, analyze_append]
    simp [analyze_conversation_intent]

/-- Claim C1 (corrected): load_index assigns the two deserialized
artifacts verbatim and always succeeds. No comparison of the restored
metadata length against the restored search-structure size is performed,
so a mismatch is neither detected nor truncated: the store is simply
left in the mismatched state. -/
theorem claim_C1_load_index_unchecked (st : VectorStore) (stored_index : List (List ℝ))
    (stored_metadata : List EmbeddingRecord) :
    st.load_index stored_index stored_metadata =
      Except.ok { st with index := stored_index, metadata := stored_metadata } ∧
    (st.load_index stored_index stored_metadata).isOk = true := ⟨rfl, rfl⟩

/-- Claim C1 counterexample: restoring a one-vector search structure
together with an empty metadata sequence — lengths 1 and 0 — succeeds
with no error raised, and the mismatched lists are kept as they are. -/
theorem claim_C1_counterexample :
    (VectorStore.empty 2).load_index [[1, 0]] [] =
      Except.ok ⟨2, [[1, 0]], []⟩ ∧
    ([[(1 : ℝ), 0]].length = 1 ∧ ([] : List EmbeddingRecord).length = 0 ∧ (1 : Nat) ≠ 0) :=
  ⟨rfl, rfl, rfl, by decide⟩

theorem sum_sq_nonneg (v : List ℝ) : 0 ≤ sum_sq v := by
  unfold sum_sq
  apply List.sum_nonneg
  intro x hx
  obtain ⟨y, _, rfl⟩ := List.mem_map.mp hx
  exact mul_self_nonneg y

theorem sum_sq_map_div (v : List ℝ) (s : ℝ) :
    sum_sq (v.map (fun x => x / s)) = sum_sq v / (s * s) := by
  unfold sum_sq
  induction v with
  | nil => simp
  | cons x xs ih =>
    simp only [List.map_cons, List.sum_cons] at ih ⊢
    rw [ih, div_mul_div_comm, div_add_div_same]

theorem sum_sq_normalize (v : List ℝ) (h : sum_sq v ≠ 0) :
    sum_sq (normalize_L2 v) = 1 := by
  have hpos : 0 < sum_sq v := lt_of_le_of_ne (sum_sq_nonneg v) (Ne.symm h)
  unfold normalize_L2
  rw [if_pos hpos, sum_sq_map_div, Real.mul_self_sqrt (le_of_lt hpos), div_self h]

/-- Claim C8 (corrected): after any sequence of add calls starting from
an empty store, every vector held by the index has squared L2 norm
exactly 1, provided every added vector has nonzero norm. The claim as
stated fails for the zero vector, which normalization leaves unchanged
(see the counterexample), so the nonzero hypothesis is required. -/
theorem claim_C8_normalized_store (batches : List (List EmbeddingRecord)) (d : Nat)
    (h : ∀ b ∈ batches, ∀ r ∈ b, sum_sq r.embedding ≠ 0) :
    ∀ v ∈ (batches.foldl VectorStore.add_embeddings (VectorStore.empty d)).index,
      sum_sq v = 1 := by
  suffices hgen : ∀ (bs : List (List EmbeddingRecord)) (st : VectorStore),
      (∀ v ∈ st.index, sum_sq v = 1) →
      (∀ b ∈ bs, ∀ r ∈ b, sum_sq r.embedding ≠ 0) →
      ∀ v ∈ (bs.foldl VectorStore.add_embeddings st).index, sum_sq v = 1 by
    exact hgen batches (VectorStore.empty d) (by intro v hv; simp [VectorStore.empty] at hv) h
  intro bs
  induction bs with
  | nil => intro st hst _ v hv; exact hst v hv
  | cons b bs ih =>
    intro st hst hb v hv
    rw [List.foldl_cons] at hv
    refine ih (st.add_embeddings b) ?_ (fun b2 hb2 => hb b2 (List.mem_cons_of_mem b hb2)) v hv
    intro w hw
    rw [VectorStore.add_embeddings] at hw
    simp only [List.mem_append, List.mem_map] at hw
    rcases hw with hw | ⟨r, hr, rfl⟩
    · exact hst w hw
    · exact sum_sq_normalize r.embedding (hb b (List.mem_cons_self b bs) r hr)

/-- Claim C8 counterexample: adding a record whose vector is the zero
vector stores the zero vector itself, whose squared L2 norm is 0 and not
1, so the normalization invariant does not hold for every added
vector. -/
theorem claim_C8_counterexample :
    ((VectorStore.empty 2).add_embeddings [zero_record]).index = [[0, 0]] ∧
    sum_sq [0, 0] = 0 ∧ (0 : ℝ) ≠ 1 := by
  refine ⟨?_, by simp [sum_sq], by norm_num⟩
  rw [VectorStore.add_embeddings]
  simp only [VectorStore.empty, List.map_cons, List.map_nil, List.nil_append]
  rw [show normalize_L2 zero_record.embedding = [0, 0] from ?_]
  unfold normalize_L2 zero_record
  rw [if_neg (by simp [sum_sq])]

/-- Claim C8 witness: the amended theorem applied to one add of the
vector (3, 4), whose norm is nonzero. -/
theorem claim_C8_witness :
    (∀ b ∈ [[record34]], ∀ r ∈ b, sum_sq r.embedding ≠ 0) ∧
    ∀ v ∈ (List.foldl VectorStore.add_embeddings (VectorStore.empty 2) [[record34]]).index,
      sum_sq v = 1 := by
  have h : ∀ b ∈ [[record34]], ∀ r ∈ b, sum_sq r.embedding ≠ 0 := by
    intro b hb r hr
    rw [List.mem_singleton] at hb
    subst hb
    rw [List.mem_singleton] at hr
    subst hr
    simp [record34, sum_sq]
    norm_num
  exact ⟨h, claim_C8_normalized_store [[record34]] 2 h⟩

theorem faiss_hits_eq (xb : List (List ℝ)) (q : List ℝ) (k : Nat) :
    (faiss_search xb q k).filter (fun p => decide (p.1 ≠ -1)) =
      ((List.insertionSort score_desc ((xb.map (fun v => dot v q)).enum)).take k).map
        (fun p => ((p.1 : Int), p.2)) := by
  unfold faiss_search
  rw [List.filter_append]
  have h1 : (List.replicate
      (k - (((List.insertionSort score_desc ((xb.map (fun v => dot v q)).enum)).take k).map
        (fun p => ((p.1 : Int), p.2))).length) ((-1 : Int), (0 : ℝ))).filter
      (fun p => decide (p.1 ≠ -1)) = [] := by
    rw [List.filter_eq_nil]
    intro a ha
    rw [List.mem_replicate] at ha
    rw [ha.2]
    simp
  have h2 : (((List.insertionSort score_desc ((xb.map (fun v => dot v q)).enum)).take k).map
      (fun p => ((p.1 : Int), p.2))).filter (fun p => decide (p.1 ≠ -1)) =
      ((List.insertionSort score_desc ((xb.map (fun v => dot v q)).enum)).take k).map
      (fun p => ((p.1 : Int), p.2)) := by
    rw [List.filter_eq_self]
    intro a ha
    rw [List.mem_map] at ha
    obtain ⟨p, _, rfl⟩ := ha
    rw [decide_eq_true_eq]
    have := Int.natCast_nonneg p.1
    omega
  rw [h1, h2, List.append_nil]

theorem search_eq (st : VectorStore) (q : List ℝ) (k : Nat) :
    st.search q k =
      ((List.insertionSort score_desc
          ((st.index.map (fun v => dot v (normalize_L2 q))).enum)).take k).map
        (fun p => (p.2, st.metadata.get? p.1)) := by
  unfold VectorStore.search
  dsimp only
  rw [faiss_hits_eq, List.map_map]
  congr 1

/-- Claim C10 (confirmed): under the parallel-array invariant that the
metadata list is as long as the vector list, every result of search
pairs the score of some stored vector with the metadata entry at that
same position, and that metadata lookup is in bounds (the optional
lookup always succeeds). Search never dereferences a padding position:
only indices the search structure reports as valid reach the metadata
list. -/
theorem claim_C10_search_metadata_aligned (st : VectorStore) (q : List ℝ) (k : Nat)
    (hpar : st.metadata.length = st.index.length) :
    ∀ r ∈ st.search q k, ∃ i : Nat, i < st.index.length ∧
      r.1 = dot (st.index.getD i []) (normalize_L2 q) ∧
      r.2 = st.metadata.get? i ∧ r.2.isSome = true := by
  rw [search_eq]
  intro r hr
  obtain ⟨p, hp, rfl⟩ := List.mem_map.mp hr
  have hp2 : p ∈ List.insertionSort score_desc
      ((st.index.map (fun v => dot v (normalize_L2 q))).enum) :=
    (List.take_sublist k _).subset hp
  have hp3 : p ∈ (st.index.map (fun v => dot v (normalize_L2 q))).enum :=
    ((List.perm_insertionSort score_desc _).mem_iff).mp hp2
  have hp4 := List.mem_enum_iff_get?.mp hp3
  rw [List.get?_map] at hp4
  cases hidx : st.index.get? p.1 with
  | none => rw [hidx] at hp4; exact absurd hp4 (by simp)
  | some v =>
    rw [hidx] at hp4
    have hv : dot v (normalize_L2 q) = p.2 := by
      simpa using hp4
    have hlt : p.1 < st.index.length := by
      by_contra hge
      rw [List.get?_eq_none.mpr (by omega)] at hidx
      exact Option.noConfusion hidx
    refine ⟨p.1, hlt, ?_, rfl, ?_⟩
    · rw [List.getD_eq_get?, hidx]
      exact hv.symm
    · cases hmd : st.metadata.get? p.1 with
      | none =>
        have := List.get?_eq_none.mp hmd
        omega
      | some m => rfl

/-- Claim C10 witness: the theorem applied to a concrete store holding
one vector and one metadata record. -/
theorem claim_C10_witness :
    store10.metadata.length = store10.index.length ∧
    ∀ r ∈ store10.search [1, 0] 3, ∃ i : Nat, i < store10.index.length ∧
      r.1 = dot (store10.index.getD i []) (normalize_L2 [1, 0]) ∧
      r.2 = store10.metadata.get? i ∧ r.2.isSome = true :=
  ⟨rfl, claim_C10_search_metadata_aligned store10 [1, 0] 3 rfl⟩

theorem take_to_last_close_none (l : List Char) (h : take_to_last_close l = none) :
    '}' ∉ l := by
  induction l with
  | nil => simp
  | cons c cs ih =>
    unfold take_to_last_close at h
    cases hcs : take_to_last_close cs with
    | some t => simp [hcs] at h
    | none =>
      simp only [hcs] at h
      by_cases hc : c = '}'
      · simp [hc] at h
      · intro hmem
        rcases List.mem_cons.mp hmem with he | hm
        · exact hc he.symm
        · exact ih hcs hm

theorem take_to_last_close_some (l : List Char) :
    ∀ t, take_to_last_close l = some t →
      ∃ t0 post, l = t0 ++ '}' :: post ∧ t = t0 ++ ['}'] ∧ '}' ∉ post := by
  induction l with
  | nil => intro t h; simp [take_to_last_close] at h
  | cons c cs ih =>
    intro t h
    unfold take_to_last_close at h
    cases hcs : take_to_last_close cs with
    | some t2 =>
      simp only [hcs] at h
      obtain ⟨t0, post, h1, h2, h3⟩ := ih t2 hcs
      refine ⟨c :: t0, post, ?_, ?_, h3⟩
      · simp [h1]
      · rw [← Option.some.inj h, h2]; rfl
    | none =>
      simp only [hcs] at h
      by_cases hc : c = '}'
      · rw [if_pos hc] at h
        refine ⟨[], cs, ?_, ?_, take_to_last_close_none cs hcs⟩
        · simp [hc]
        · rw [← Option.some.inj h, hc]; rfl
      · rw [if_neg hc] at h
        exact Option.noConfusion h

theorem brace_span_match_parts (s : List Char) :
    ∀ t, brace_span_match s = some t →
      ∃ pre post, s = pre ++ t ++ post ∧ '{' ∉ pre ∧ '}' ∉ post ∧
        t.head? = some '{' ∧ t.getLast? = some '}' := by
  induction s with
  | nil => intro t h; simp [brace_span_match] at h
  | cons c cs ih =>
    intro t h
    unfold brace_span_match at h
    by_cases hc : c = '{'
    · rw [if_pos hc] at h
      obtain ⟨t0, post, h1, h2, h3⟩ := take_to_last_close_some (c :: cs) t h
      subst hc
      cases t0 with
      | nil => simp at h1
      | cons c0 t0 =>
        rw [List.cons_append] at h1
        injection h1 with hc0 hcs2
        refine ⟨[], post, ?_, by simp, h3, ?_, ?_⟩
        · rw [h2, hcs2, ← hc0]
          simp
        · rw [h2, ← hc0]
          rfl
        · rw [h2, List.getLast?_concat]
    · rw [if_neg hc] at h
      obtain ⟨pre, post, h1, h2, h3, h4, h5⟩ := ih t h
      refine ⟨c :: pre, post, by simp [h1], ?_, h3, h4, h5⟩
      intro hmem
      rcases List.mem_cons.mp hmem with he | hm
      · exact hc he.symm
      · exact h2 hm

/-- Claim C4 (corrected): when the raw completion text matches the
extraction regex, the span handed to the JSON parser runs from the first
opening brace of the text to the LAST closing brace of the whole text
(the greedy match), not to the brace matching the first opening one: the
extracted span starts at an opening brace before which there is no
opening brace, ends at a closing brace after which there is no closing
brace, and is exactly what json.loads receives. It coincides with the
first balanced brace span only when no closing brace follows that span
(see the counterexample). -/
theorem claim_C4_greedy_brace_span (s t : List Char)
    (h : brace_span_match s = some t) :
    (∃ pre post, s = pre ++ t ++ post ∧ '{' ∉ pre ∧ '}' ∉ post) ∧
    t.head? = some '{' ∧ t.getLast? = some '}' ∧ extract_json_text s = t := by
  obtain ⟨pre, post, h1, h2, h3, h4, h5⟩ := brace_span_match_parts s t h
  exact ⟨⟨pre, post, h1, h2, h3⟩, h4, h5, by simp [extract_json_text, h]⟩

/-- Claim C4 counterexample: on the raw response consisting of two
balanced objects separated by a blank, the first balanced span is the
first object alone, but the text handed to the parser is the whole
first-to-last brace span, which differs from the first balanced span. -/
theorem claim_C4_counterexample :
    spec_first_balanced_span ['{', 'a', '}', ' ', '{', 'b', '}'] = some ['{', 'a', '}'] ∧
    extract_json_text ['{', 'a', '}', ' ', '{', 'b', '}'] =
      ['{', 'a', '}', ' ', '{', 'b', '}'] ∧
    (['{', 'a', '}', ' ', '{', 'b', '}'] : List Char) ≠ ['{', 'a', '}'] := by
  refine ⟨?_, ?_, ?_⟩ <;> decide

/-- Claim C4 witness: the amended theorem applied to a concrete response
with prose on both sides of the brace span. -/
theorem claim_C4_witness :
    brace_span_match ['x', '{', 'a', '}', 'y'] = some ['{', 'a', '}'] ∧
    ((∃ pre post, (['x', '{', 'a', '}', 'y'] : List Char) =
        pre ++ ['{', 'a', '}'] ++ post ∧ '{' ∉ pre ∧ '}' ∉ post) ∧
      (['{', 'a', '}'] : List Char).head? = some '{' ∧
      (['{', 'a', '}'] : List Char).getLast? = some '}' ∧
      extract_json_text ['x', '{', 'a', '}', 'y'] = ['{', 'a', '}']) :=
  ⟨by decide, claim_C4_greedy_brace_span ['x', '{', 'a', '}', 'y'] ['{', 'a', '}'] (by decide)⟩

/-- Claim C9 (corrected): create_product_text joins, in fixed order with
the delimiter, exactly these segments: the product name segment always;
the description segment only when the description is nonempty; the
category name segment ALWAYS, even when the category name is empty (an
empty category name therefore leaves an empty placeholder segment,
refuting the claim as stated — see the counterexample); the category
description segment only when nonempty; the price and price-list
segments always; the promotions segment only when the promotion list is
nonempty; the images segment only when some image description is
nonempty. The optional fields are skipped entirely, with no empty
placeholder. -/
theorem claim_C9_product_text_segments (p : ProductInfo) :
    create_product_text p = String.intercalate " | "
      (["Producto: " ++ p.nombre]
        ++ (if p.descripcion = "" then [] else ["Descripción: " ++ p.descripcion])
        ++ ["Categoría: " ++ p.categoria]
        ++ (if p.categoria_descripcion = "" then []
            else ["Descripción de categoría: " ++ p.categoria_descripcion])
        ++ ["Precio actual: $" ++ format_2f p.precio_actual,
            "Lista de precios: " ++ p.lista_precios]
        ++ (if p.promociones = [] then []
            else ["Promociones activas: " ++
              String.intercalate "; " (p.promociones.map promocion_text)])
        ++ (if (p.imagenes.map Imagen.descripcion).filter (fun d => decide (d ≠ "")) = []
            then []
            else ["Imágenes: " ++ String.intercalate "; "
              ((p.imagenes.map Imagen.descripcion).filter (fun d => decide (d ≠ "")))])) := by
  unfold create_product_text
  dsimp only
  split_ifs <;> simp_all

/-- Claim C9 counterexample: a product whose category name is empty
still produces the category segment, so the output carries an empty
placeholder between the name and the price segments. -/
theorem claim_C9_counterexample :
    producto0.categoria = "" ∧
    create_product_text producto0 =
      "Producto: X | Categoría:  | Precio actual: $10.00 | Lista de precios: General" := by
  exact ⟨rfl, by decide⟩

theorem add_row_mem (row : InterestRow) (p : ClientProfile) :
    ∀ (acc : List ClientProfile), p ∈ add_row acc row →
      p = new_profile row ∨ p ∈ acc ∨
        ∃ q ∈ acc, q.cliente_id = row.cliente_id ∧ q.interests.length < 3 ∧
          p = { q with interests := q.interests ++ [entry_of row] } := by
  intro acc
  induction acc with
  | nil =>
    intro hp
    simp only [add_row, List.mem_singleton] at hp
    exact Or.inl hp
  | cons q qs ih =>
    intro hp
    simp only [add_row] at hp
    by_cases hcid : q.cliente_id = row.cliente_id
    · rw [if_pos hcid] at hp
      by_cases hlen : q.interests.length < 3
      · rw [if_pos hlen] at hp
        rcases List.mem_cons.mp hp with hp1 | hp1
        · exact Or.inr (Or.inr ⟨q, List.mem_cons_self q qs, hcid, hlen, hp1⟩)
        · exact Or.inr (Or.inl (List.mem_cons_of_mem q hp1))
      · rw [if_neg hlen] at hp
        rcases List.mem_cons.mp hp with hp1 | hp1
        · exact Or.inr (Or.inl (hp1 ▸ List.mem_cons_self q qs))
        · exact Or.inr (Or.inl (List.mem_cons_of_mem q hp1))
    · rw [if_neg hcid] at hp
      rcases List.mem_cons.mp hp with hp1 | hp1
      · exact Or.inr (Or.inl (hp1 ▸ List.mem_cons_self q qs))
      · rcases ih hp1 with h | h | ⟨q2, hq2, h1, h2, h3⟩
        · exact Or.inl h
        · exact Or.inr (Or.inl (List.mem_cons_of_mem q h))
        · exact Or.inr (Or.inr ⟨q2, List.mem_cons_of_mem q hq2, h1, h2, h3⟩)

theorem add_row_profile_ok (seen : List InterestRow) (row : InterestRow)
    (acc : List ClientProfile) (h : ∀ p ∈ acc, profile_from_rows seen p) :
    ∀ p ∈ add_row acc row, profile_from_rows (seen ++ [row]) p := by
  intro p hp
  rcases add_row_mem row p acc hp with h1 | h1 | ⟨q, hq, hcid, hlen, rfl⟩
  · subst h1
    refine ⟨[row], List.sublist_append_right seen [row], by simp, by simp, ?_, rfl⟩
    intro r hr
    rw [List.mem_singleton] at hr
    subst hr
    rfl
  · obtain ⟨rs, hsub, hne, hlen3, hcids, hints⟩ := h p h1
    exact ⟨rs, hsub.trans (List.sublist_append_left seen [row]), hne, hlen3, hcids, hints⟩
  · obtain ⟨rs, hsub, hne, hlen3, hcids, hints⟩ := h q hq
    rw [hints, List.length_map] at hlen
    refine ⟨rs ++ [row], List.Sublist.append hsub (List.Sublist.refl [row]),
      by simp, by rw [List.length_append]; simp; omega, ?_, by simp [hints]⟩
    intro r hr
    rcases List.mem_append.mp hr with hr | hr
    · exact hcids r hr
    · rw [List.mem_singleton] at hr
      subst hr
      exact hcid.symm

theorem foldl_add_row_profile_ok (rows : List InterestRow) :
    ∀ (acc : List ClientProfile) (seen : List InterestRow),
      (∀ p ∈ acc, profile_from_rows seen p) →
      ∀ p ∈ rows.foldl add_row acc, profile_from_rows (seen ++ rows) p := by
  induction rows with
  | nil => intro acc seen h; simpa using h
  | cons row rows ih =>
    intro acc seen h p hp
    rw [List.foldl_cons] at hp
    have h2 := ih (add_row acc row) (seen ++ [row]) (add_row_profile_ok seen row acc h) p hp
    rw [List.append_assoc] at h2
    simpa using h2

theorem add_row_ids (row : InterestRow) (cid : Nat) :
    ∀ (acc : List ClientProfile),
      ((∃ p ∈ add_row acc row, p.cliente_id = cid) ↔
        (∃ p ∈ acc, p.cliente_id = cid) ∨ row.cliente_id = cid) := by
  intro acc
  induction acc with
  | nil => simp [add_row, new_profile, eq_comm]
  | cons q qs ih =>
    simp only [add_row]
    by_cases hcid : q.cliente_id = row.cliente_id
    · rw [if_pos hcid]
      by_cases hlen : q.interests.length < 3
      · rw [if_pos hlen]
        simp only [List.mem_cons, exists_eq_or_imp]
        simp [hcid]
        tauto
      · rw [if_neg hlen]
        simp only [List.mem_cons, exists_eq_or_imp]
        simp [hcid]
        tauto
    · rw [if_neg hcid]
      constructor
      · rintro ⟨p, hp, hpcid⟩
        rcases List.mem_cons.mp hp with rfl | hp2
        · exact Or.inl ⟨p, List.mem_cons_self _ _, hpcid⟩
        · rcases ih.mp ⟨p, hp2, hpcid⟩ with ⟨p2, hp2b, hc⟩ | h
          · exact Or.inl ⟨p2, List.mem_cons_of_mem q hp2b, hc⟩
          · exact Or.inr h
      · rintro (⟨p, hp, hpcid⟩ | hrow)
        · rcases List.mem_cons.mp hp with rfl | hp2
          · exact ⟨p, List.mem_cons_self _ _, hpcid⟩
          · obtain ⟨p2, hp2b, hc⟩ := ih.mpr (Or.inl ⟨p, hp2, hpcid⟩)
            exact ⟨p2, List.mem_cons_of_mem q hp2b, hc⟩
        · obtain ⟨p2, hp2b, hc⟩ := ih.mpr (Or.inr hrow)
          exact ⟨p2, List.mem_cons_of_mem q hp2b, hc⟩

theorem foldl_add_row_ids (rows : List InterestRow) :
    ∀ (acc : List ClientProfile) (cid : Nat),
      ((∃ p ∈ rows.foldl add_row acc, p.cliente_id = cid) ↔
        (∃ p ∈ acc, p.cliente_id = cid) ∨ ∃ r ∈ rows, r.cliente_id = cid) := by
  induction rows with
  | nil => intro acc cid; simp
  | cons row rows ih =>
    intro acc cid
    rw [List.foldl_cons, ih, add_row_ids row cid acc]
    simp only [List.mem_cons, exists_eq_or_imp]
    exact or_assoc

theorem add_row_id_mem (row : InterestRow) (p : ClientProfile)
    (acc : List ClientProfile) (hp : p ∈ add_row acc row) :
    p.cliente_id = row.cliente_id ∨ ∃ q ∈ acc, p.cliente_id = q.cliente_id := by
  rcases add_row_mem row p acc hp with h | h | ⟨q, hq, _, _, rfl⟩
  · subst h
    exact Or.inl rfl
  · exact Or.inr ⟨p, h, rfl⟩
  · exact Or.inr ⟨q, hq, rfl⟩

theorem add_row_pairwise_ids (row : InterestRow) :
    ∀ (acc : List ClientProfile),
      List.Pairwise (fun p q => p.cliente_id ≠ q.cliente_id) acc →
      List.Pairwise (fun p q => p.cliente_id ≠ q.cliente_id) (add_row acc row) := by
  intro acc
  induction acc with
  | nil =>
    intro _
    simp [add_row]
  | cons q qs ih =>
    intro h
    obtain ⟨hq, hqs⟩ := List.pairwise_cons.mp h
    simp only [add_row]
    by_cases hcid : q.cliente_id = row.cliente_id
    · rw [if_pos hcid]
      by_cases hlen : q.interests.length < 3
      · rw [if_pos hlen]
        exact List.pairwise_cons.mpr ⟨fun p hp => hq p hp, hqs⟩
      · rw [if_neg hlen]
        exact h
    · rw [if_neg hcid]
      refine List.pairwise_cons.mpr ⟨?_, ih hqs⟩
      intro p hp
      rcases add_row_id_mem row p qs hp with h1 | ⟨q2, hq2, h2⟩
      · rw [h1]
        exact hcid
      · rw [h2]
        exact hq q2 hq2

theorem foldl_add_row_pairwise_ids (rows : List InterestRow) :
    ∀ (acc : List ClientProfile),
      List.Pairwise (fun p q => p.cliente_id ≠ q.cliente_id) acc →
      List.Pairwise (fun p q => p.cliente_id ≠ q.cliente_id) (rows.foldl add_row acc) := by
  induction rows with
  | nil => intro acc h; exact h
  | cons row rows ih =>
    intro acc h
    rw [List.foldl_cons]
    exact ih (add_row acc row) (add_row_pairwise_ids row acc h)

/-- Claim C3 (corrected): every profile returned by
get_clients_with_interests belongs to a client with at least one
qualifying signal and carries between 1 and 3 interests, each drawn from
that client qualifying rows, ordered by descending confidence; a
client id appears in the result exactly when that client has at least
one qualifying signal, so clients with zero qualifying signals are
excluded rather than returned as empty profiles; and the returned
profiles carry pairwise-distinct client ids, so each qualifying client
receives exactly one profile. Confidence ties are NOT broken by
recency: tied rows keep the order the query happens to return (modelled
as the stored row order), which the counterexample shows can be oldest
first. -/
theorem claim_C3_top_interests (clientes : List Cliente) (convs : List Conversacion)
    (intereses : List Interes) (min_interest_level : Rat) (cutoff : Nat) :
    (∀ p ∈ get_clients_with_interests clientes convs intereses min_interest_level cutoff,
        p.interests ≠ [] ∧
        p.interests.length ≤ 3 ∧
        List.Sorted (fun a b => b.nivel_interes ≤ a.nivel_interes) p.interests ∧
        ∀ e ∈ p.interests,
          ∃ r ∈ joined_rows clientes convs intereses min_interest_level cutoff,
            r.cliente_id = p.cliente_id ∧ entry_of r = e) ∧
    (∀ cid : Nat,
        (∃ p ∈ get_clients_with_interests clientes convs intereses min_interest_level cutoff,
            p.cliente_id = cid) ↔
        ∃ r ∈ joined_rows clientes convs intereses min_interest_level cutoff,
          r.cliente_id = cid) ∧
    List.Pairwise (fun p q => p.cliente_id ≠ q.cliente_id)
      (get_clients_with_interests clientes convs intereses min_interest_level cutoff) := by
  refine ⟨?_, ?_, ?_⟩
  · intro p hp
    unfold get_clients_with_interests at hp
    have h0 := foldl_add_row_profile_ok
      (List.insertionSort row_order
        (joined_rows clientes convs intereses min_interest_level cutoff))
      [] [] (by intro p2 hp2; exact absurd hp2 (List.not_mem_nil p2)) p hp
    rw [List.nil_append] at h0
    obtain ⟨rs, hsub, hne, hlen3, hcids, hints⟩ := h0
    refine ⟨?_, ?_, ?_, ?_⟩
    · rw [hints]
      simp [hne]
    · rw [hints, List.length_map]
      exact hlen3
    · have hsorted : List.Pairwise row_order
          (List.insertionSort row_order
            (joined_rows clientes convs intereses min_interest_level cutoff)) :=
        List.sorted_insertionSort row_order _
      have hrs : List.Pairwise row_order rs := List.Pairwise.sublist hsub hsorted
      have hrs2 : List.Pairwise (fun a b => b.nivel_interes ≤ a.nivel_interes) rs := by
        refine List.Pairwise.imp_of_mem ?_ hrs
        intro a b ha hb hab
        rcases hab with hlt | ⟨_, hle⟩
        · exfalso
          rw [hcids a ha, hcids b hb] at hlt
          exact Nat.lt_irrefl _ hlt
        · exact hle
      rw [hints]
      exact List.Pairwise.map entry_of (fun a b hab => hab) hrs2
    · intro e he
      rw [hints] at he
      obtain ⟨r, hr, rfl⟩ := List.mem_map.mp he
      exact ⟨r, ((List.perm_insertionSort row_order _).mem_iff).mp (hsub.subset hr),
        hcids r hr, rfl⟩
  · intro cid
    unfold get_clients_with_interests
    rw [foldl_add_row_ids]
    simp only [List.not_mem_nil, false_and, exists_false, false_or]
    constructor
    · rintro ⟨r, hr, hcid2⟩
      exact ⟨r, ((List.perm_insertionSort row_order _).mem_iff).mp hr, hcid2⟩
    · rintro ⟨r, hr, hcid2⟩
      exact ⟨r, ((List.perm_insertionSort row_order _).mem_iff).mpr hr, hcid2⟩
  · unfold get_clients_with_interests
    exact foldl_add_row_pairwise_ids _ [] List.Pairwise.nil

/-- Claim C3 counterexample: two qualifying signals with equal
confidence, the older one stored first, come back with the OLDER signal
first (entity 5 before entity 6), so ties are not broken by most-recent
first as the claim states. -/
theorem claim_C3_counterexample :
    (get_clients_with_interests [cliente1] [conversacion1] [interes_old, interes_new] 0 0).map
        (fun p => p.interests.map (fun e => e.entidad_id)) = [[5, 6]] ∧
    interes_old.fecha_creacion < interes_new.fecha_creacion ∧
    interes_old.nivel_interes = interes_new.nivel_interes ∧
    interes_old.entidad_id = 5 ∧ interes_new.entidad_id = 6 := by
  refine ⟨?_, ?_, ?_, ?_, ?_⟩ <;> decide
